import Mathlib

/-
Verification of the core of scripts/contrib_word_art.py: the glyph
compositor (compose_word), the date arithmetic (sunday_of_current_week,
leftmost_sunday), the schedule planner (plan_dates) and the decision
structure of main.

Calendar dates are modelled as proleptic Gregorian ordinals (the value of
Python date.toordinal), as integers.  Ordinal 1 is a Monday, a day of
difference is a unit of difference, and date ± timedelta(days = k) is
integer addition.  Canvases are lists of rows of 0/1 entries, exactly as
the Python lists of lists of ints.
-/

/-- The 5x7 font table `FONT_5x7` of the script, keyed by an uppercase
character; `none` models the key being absent from the dict. -/
def FONT_5x7 (ch : Char) : Option (List String) :=
  match ch with
  | 'N' => some ["10001", "11001", "10101", "10011", "10001", "10001", "10001"]
  | 'E' => some ["11111", "10000", "11110", "10000", "11111", "00000", "00000"]
  | 'R' => some ["11110", "10001", "11110", "10100", "10010", "10001", "00000"]
  | 'D' => some ["11110", "10001", "10001", "10001", "11110", "00000", "00000"]
  | 'L' => some ["10000", "10000", "10000", "10000", "11111", "00000", "00000"]
  | 'I' => some ["11111", "00100", "00100", "00100", "11111", "00000", "00000"]
  | _ => none

/-- Read one cell of a canvas (`canvas[row][col]` in the script; reads out of
range return 0, which never happens on the shapes the script builds). -/
def cell (canvas : List (List Nat)) (row col : Nat) : Nat :=
  (canvas.getD row []).getD col 0

/-- The assignment `canvas[r][c] = v` of the script, as a functional update. -/
def setCell (canvas : List (List Nat)) (r c : Nat) (v : Nat) : List (List Nat) :=
  canvas.set r ((canvas.getD r []).set c v)

/-- The inner double loop of `compose_word`: stamp one glyph whose left edge is
at column `c` (an integer, since the running column may leave the canvas),
writing only set bits whose target column lies in `[0, cols)`. -/
def stampGlyph (canvas : List (List Nat)) (glyph : List String) (c : Int)
    (cols : Nat) : List (List Nat) :=
  (List.range 7).foldl (fun cv r =>
    (List.range 5).foldl (fun cv2 x =>
      if (glyph.getD r "").toList.getD x '0' = '1' ∧ 0 ≤ c + x ∧ c + x < cols then
        setCell cv2 r (c + x).toNat 1
      else cv2) cv) canvas

/-- `compose_word(word, total_columns, spacing)` of the script: build a
7 x total_columns canvas of zeros, uppercase the word, keep the characters
that are font keys, centre the resulting strip and stamp each glyph,
advancing the running column by 5 + spacing per letter. -/
def compose_word (word : List Char) (total_columns : Nat) (spacing : Int) :
    List (List Nat) :=
  let cols := total_columns
  let canvas : List (List Nat) := List.replicate 7 (List.replicate cols 0)
  let letters := (word.map Char.toUpper).filterMap FONT_5x7
  let width0 : Int := letters.foldl (fun w _ => w + 5 + spacing) 0
  let width : Int := if letters.isEmpty then width0 else width0 - spacing
  let start_col : Int := max 0 ((cols - width) / 2)
  (letters.foldl
    (fun st glyph => (stampGlyph st.1 glyph st.2 cols, st.2 + 5 + spacing))
    (canvas, start_col)).1

/-- Python `date.weekday()` on an ordinal: Monday = 0 .. Sunday = 6 (ordinal 1,
January 1 of year 1, is a Monday). -/
def py_weekday (d : Int) : Int :=
  (d - 1) % 7

/-- `sunday_of_current_week` of the script: roll back to the most recent
Sunday, today included when today is a Sunday. -/
def sunday_of_current_week (today : Int) : Int :=
  today - (py_weekday today + 1) % 7

/-- `leftmost_sunday` of the script: the anchor, 51 weeks before the Sunday of
the current week. -/
def leftmost_sunday (today : Int) : Int :=
  sunday_of_current_week today - 51 * 7

/-- `plan_dates` of the script, with the call to `date.today()` made an
explicit argument: for each of the 52 columns and then each of the 7 rows
(row 0 = Sunday), a lit cell emits the date anchor + col weeks + row days. -/
def plan_dates (canvas : List (List Nat)) (today : Int) : List Int :=
  let start := leftmost_sunday today
  ((List.range 52).map (fun col =>
    (List.range 7).filterMap (fun row =>
      if cell canvas row col ≠ 0 then some (start + 7 * col + row)
      else none))).flatten

/-- The day offsets relative to the anchor that `plan_dates` emits, in
emission order; `plan_dates` is exactly these offsets added to the anchor. -/
def planOffsets (canvas : List (List Nat)) : List Nat :=
  ((List.range 52).map (fun col =>
    (List.range 7).filterMap (fun row =>
      if cell canvas row col ≠ 0 then some (7 * col + row)
      else none))).flatten

/-- Number of lit cells of a canvas: per row, the entries that are nonzero
(Python truthiness of an int). -/
def countLit (canvas : List (List Nat)) : Nat :=
  (canvas.map (fun row => (row.filter (fun v => decide (v ≠ 0))).length)).sum

/-- Python `a or b` for an optional string `a` (an absent argument is `None`)
and a string `b`: the first truthy value, where only the empty string is
falsy. -/
def pyOr (a : Option String) (b : String) : String :=
  match a with
  | some s => if s = "" then b else s
  | none => b

/-- Outcome of one run of `main`: a dry run that only reports the plan and
exits 0, an abort via `SystemExit` (nonzero exit, no commit created), or an
applied run carrying the dates of the commits it creates in order. -/
inductive RunResult where
  | report : RunResult
  | abortMissingEmail : RunResult
  | applied : List Int → RunResult

/-- The decision structure of `main`: compose the word, plan the dates, stop
after reporting unless `--apply` is given; when applying, resolve the author
email as `args.email or GIT_AUTHOR_EMAIL or ""` and abort when it is empty,
otherwise create `intensity` commits per planned date. -/
def mainRun (word : List Char) (intensity : Nat) (apply : Bool)
    (emailArg envEmail : Option String) (today : Int) : RunResult :=
  let canvas := compose_word word 52 1
  let dates := plan_dates canvas today
  if apply = false then RunResult.report
  else
    let author_email := pyOr emailArg (pyOr envEmail "")
    if author_email = "" then RunResult.abortMissingEmail
    else RunResult.applied (dates.flatMap (fun d => List.replicate intensity d))

/-- C1: for every date `today`, the anchor `leftmost_sunday today` is a Sunday,
and anchor + 51 weeks is the Sunday of today's own week: it is a Sunday, it
lies in the half-open week ending at today (today - 7 < S and S <= today),
and it is today itself when today is a Sunday. -/
theorem anchor_is_sunday_spanning_51_weeks (today : Int) :
    py_weekday (leftmost_sunday today) = 6 ∧
    leftmost_sunday today + 51 * 7 = sunday_of_current_week today ∧
    py_weekday (sunday_of_current_week today) = 6 ∧
    today - 7 < sunday_of_current_week today ∧
    sunday_of_current_week today ≤ today ∧
    (py_weekday today = 6 → sunday_of_current_week today = today) := by
  unfold leftmost_sunday sunday_of_current_week py_weekday
  omega

/-- Witness for C1 at the concrete date with ordinal 738003, a Sunday. -/
theorem anchor_is_sunday_spanning_51_weeks_witness :
    py_weekday (leftmost_sunday 738003) = 6 ∧
    leftmost_sunday 738003 + 51 * 7 = sunday_of_current_week 738003 ∧
    py_weekday (sunday_of_current_week 738003) = 6 ∧
    (738003 : Int) - 7 < sunday_of_current_week 738003 ∧
    sunday_of_current_week 738003 ≤ 738003 ∧
    (py_weekday 738003 = 6 → sunday_of_current_week 738003 = 738003) :=
  anchor_is_sunday_spanning_51_weeks 738003

/-- C7: the planner is a pure function of the canvas and of the value read for
today: two runs on equal inputs emit the same sequence of dates.  In this
embedding `plan_dates` is a mathematical function, so purity is structural. -/
theorem plan_dates_deterministic (c1 c2 : List (List Nat)) (t1 t2 : Int)
    (hc : c1 = c2) (ht : t1 = t2) : plan_dates c1 t1 = plan_dates c2 t2 := by
  rw [hc, ht]

/-- Witness for C7 on a concrete canvas and date. -/
theorem plan_dates_deterministic_witness :
    plan_dates [[1, 0], [0, 1]] 738002 = plan_dates [[1, 0], [0, 1]] 738002 :=
  plan_dates_deterministic [[1, 0], [0, 1]] [[1, 0], [0, 1]] 738002 738002 rfl rfl

/-- A `filterMap` whose function is a guarded `some` is a `map` after a
`filter`. -/
theorem filterMap_ite_eq_map_filter {α β : Type} (p : α → Prop) [DecidablePred p]
    (g : α → β) (l : List α) :
    l.filterMap (fun a => if p a then some (g a) else none) =
      (l.filter (fun a => decide (p a))).map g := by
  induction l with
  | nil => rfl
  | cons a l ih =>
    by_cases h : p a
    · simp [List.filterMap_cons, List.filter_cons, h, ih]
    · simp [List.filterMap_cons, List.filter_cons, h, ih]

/-- A predicate preserved by every step of a left fold holds of the result. -/
theorem foldl_preserves {α β : Type} (P : β → Prop) (f : β → α → β)
    (hf : ∀ b a, P b → P (f b a)) :
    ∀ (l : List α) (b : β), P b → P (l.foldl f b) := by
  intro l
  induction l with
  | nil => intro b hb; exact hb
  | cons a l ih => intro b hb; exact ih (f b a) (hf b a hb)

/-- `plan_dates` is the anchor added pointwise to the emitted offsets. -/
theorem plan_dates_eq_offsets (c : List (List Nat)) (t : Int) :
    plan_dates c t =
      (planOffsets c).map (fun k : Nat => leftmost_sunday t + (k : Int)) := by
  unfold plan_dates planOffsets
  dsimp only
  rw [List.map_flatten, List.map_map]
  congr 1
  apply List.map_congr_left
  intro col _
  show _ = List.map _ (List.filterMap _ _)
  rw [List.map_filterMap]
  congr 1
  funext row
  by_cases h : cell c row col ≠ 0
  · rw [if_pos h, if_pos h]
    show some _ = some _
    congr 1
    push_cast
    ring
  · rw [if_neg h, if_neg h]
    rfl

/-- The offsets emitted by the planner are exactly `7 * col + row` over the lit
cells, columns below 52 and rows below 7. -/
theorem mem_planOffsets {c : List (List Nat)} {k : Nat} :
    k ∈ planOffsets c ↔
      ∃ col, col < 52 ∧ ∃ row, row < 7 ∧ cell c row col ≠ 0 ∧
        k = 7 * col + row := by
  unfold planOffsets
  constructor
  · intro hk
    rw [List.mem_flatten] at hk
    obtain ⟨l, hl, hkl⟩ := hk
    rw [List.mem_map] at hl
    obtain ⟨col, hcol, rfl⟩ := hl
    rw [List.mem_filterMap] at hkl
    obtain ⟨row, hrow, hsome⟩ := hkl
    rw [List.mem_range] at hcol hrow
    by_cases h : cell c row col ≠ 0
    · rw [if_pos h] at hsome
      exact ⟨col, hcol, row, hrow, h, (Option.some_inj.mp hsome).symm⟩
    · rw [if_neg h] at hsome
      exact absurd hsome (Option.some_ne_none k).symm
  · rintro ⟨col, hcol, row, hrow, hlit, rfl⟩
    rw [List.mem_flatten]
    refine ⟨_, List.mem_map_of_mem _ (List.mem_range.mpr hcol), ?_⟩
    rw [List.mem_filterMap]
    exact ⟨row, List.mem_range.mpr hrow, by rw [if_pos hlit]⟩

/-- The planner's offsets are emitted in non-decreasing order. -/
theorem planOffsets_pairwise (c : List (List Nat)) :
    (planOffsets c).Pairwise (· ≤ ·) := by
  unfold planOffsets
  rw [List.pairwise_flatten]
  constructor
  · intro l hl
    rw [List.mem_map] at hl
    obtain ⟨col, _, rfl⟩ := hl
    rw [filterMap_ite_eq_map_filter (fun row => cell c row col ≠ 0)
      (fun row => 7 * col + row)]
    exact List.Pairwise.map _ (fun a b h => by omega)
      (List.Pairwise.sublist (List.filter_sublist _) (List.pairwise_lt_range 7))
  · rw [List.pairwise_map]
    apply List.Pairwise.imp ?_ (List.pairwise_lt_range 52)
    intro c1 c2 hlt x hx y hy
    rw [List.mem_filterMap] at hx hy
    obtain ⟨r1, hr1, hs1⟩ := hx
    obtain ⟨r2, hr2, hs2⟩ := hy
    rw [List.mem_range] at hr1 hr2
    by_cases h1 : cell c r1 c1 ≠ 0
    · rw [if_pos h1] at hs1
      by_cases h2 : cell c r2 c2 ≠ 0
      · rw [if_pos h2] at hs2
        obtain rfl := Option.some_inj.mp hs1
        obtain rfl := Option.some_inj.mp hs2
        omega
      · rw [if_neg h2] at hs2
        exact absurd hs2 (Option.some_ne_none y).symm
    · rw [if_neg h1] at hs1
      exact absurd hs1 (Option.some_ne_none x).symm

/-- C3: for every lit cell (row, col) of the canvas, the date the planner emits
for that cell is a member of the plan, and re-deriving coordinates from it via
d = date - anchor gives d / 7 = col and d % 7 = row. -/
theorem plan_dates_roundtrip (canvas : List (List Nat)) (today : Int)
    (row col : Nat) (hr : row < 7) (hc : col < 52)
    (hlit : cell canvas row col ≠ 0) :
    (leftmost_sunday today + 7 * col + row) ∈ plan_dates canvas today ∧
    ((leftmost_sunday today + 7 * col + row) - leftmost_sunday today) / 7
      = col ∧
    ((leftmost_sunday today + 7 * col + row) - leftmost_sunday today) % 7
      = row := by
  refine ⟨?_, by omega, by omega⟩
  rw [plan_dates_eq_offsets]
  rw [List.mem_map]
  refine ⟨7 * col + row, ?_, by push_cast; ring⟩
  rw [mem_planOffsets]
  exact ⟨col, hc, row, hr, hlit, rfl⟩

/-- Witness for C3: the canvas for "I", row 0, column 23, on the Saturday with
ordinal 738002. -/
theorem plan_dates_roundtrip_witness :
    (leftmost_sunday 738002 + 7 * 23 + 0)
      ∈ plan_dates (compose_word ['I'] 52 1) 738002 ∧
    ((leftmost_sunday 738002 + 7 * 23 + 0) - leftmost_sunday 738002) / 7
      = 23 ∧
    ((leftmost_sunday 738002 + 7 * 23 + 0) - leftmost_sunday 738002) % 7
      = 0 :=
  plan_dates_roundtrip (compose_word ['I'] 52 1) 738002 0 23
    (by decide) (by decide) (by decide)

/-- C10: every emitted date lies in the displayed 52-week window: at or after
the anchor, at most anchor + 51 weeks + 6 days, hence never after the Saturday
of the current week. -/
theorem plan_dates_within_window (canvas : List (List Nat)) (today : Int)
    (d : Int) (hd : d ∈ plan_dates canvas today) :
    leftmost_sunday today ≤ d ∧ d ≤ leftmost_sunday today + 51 * 7 + 6 ∧
    d ≤ sunday_of_current_week today + 6 := by
  rw [plan_dates_eq_offsets, List.mem_map] at hd
  obtain ⟨k, hk, rfl⟩ := hd
  rw [mem_planOffsets] at hk
  obtain ⟨col, hc, row, hr, _, rfl⟩ := hk
  unfold leftmost_sunday
  refine ⟨by omega, by omega, by omega⟩

/-- Witness for C10: a concrete emitted date of the plan for "I" on the
Saturday with ordinal 738002. -/
theorem plan_dates_within_window_witness :
    leftmost_sunday 738002 ≤ 737800 ∧
    (737800 : Int) ≤ leftmost_sunday 738002 + 51 * 7 + 6 ∧
    (737800 : Int) ≤ sunday_of_current_week 738002 + 6 :=
  plan_dates_within_window (compose_word ['I'] 52 1) 738002 737800 (by decide)

/-- Counting the nonzero entries of a row by value equals counting them by
index over the row's length. -/
theorem length_filter_eq_sum_indicator (r : List Nat) :
    (r.filter (fun v => decide (v ≠ 0))).length =
      ((List.range r.length).map
        (fun col => if r.getD col 0 ≠ 0 then 1 else 0)).sum := by
  induction r with
  | nil => rfl
  | cons a r ih =>
    rw [List.length_cons, List.range_succ_eq_map, List.map_cons, List.sum_cons,
      List.map_map]
    have hcomp :
        ((fun col => if (a :: r).getD col 0 ≠ 0 then 1 else 0) ∘ Nat.succ) =
          (fun col => if r.getD col 0 ≠ 0 then 1 else 0) := by
      funext col
      simp [Function.comp, List.getD_cons_succ]
    rw [hcomp, List.filter_cons]
    by_cases h : a ≠ 0
    · rw [if_pos (by simpa using h)]
      rw [List.length_cons, ih]
      have : (a :: r).getD 0 0 = a := List.getD_cons_zero
      rw [this, if_pos h]
      omega
    · rw [if_neg (by simpa using h)]
      rw [ih]
      have : (a :: r).getD 0 0 = a := List.getD_cons_zero
      rw [this, if_neg h]
      omega

/-- Filtering the indices of a list by a predicate on the indexed element has
the same length as filtering the list itself. -/
theorem length_filter_range_getD {α : Type} (d : α) (p : α → Bool) :
    ∀ c : List α,
      ((List.range c.length).filter (fun r => p (c.getD r d))).length =
        (c.filter p).length := by
  intro c
  induction c with
  | nil => rfl
  | cons a c ih =>
    rw [List.length_cons, List.range_succ_eq_map, List.filter_cons,
      List.filter_cons]
    have hmap : (List.map Nat.succ (List.range c.length)).filter
          (fun r => p ((a :: c).getD r d)) =
        List.map Nat.succ ((List.range c.length).filter
          (fun r => p (c.getD r d))) := by
      rw [List.filter_map]
      congr 1
    have h0 : (a :: c).getD 0 d = a := List.getD_cons_zero
    rw [h0]
    by_cases h : p a
    · rw [if_pos h, if_pos h, List.length_cons, List.length_cons, hmap,
        List.length_map, ih]
    · rw [if_neg h, if_neg h, hmap, List.length_map, ih]

/-- Double counting: summing, over the columns, the rows lit in that column
gives the number of lit cells, for canvases whose rows all have length m. -/
theorem sum_col_counts_eq_countLit (m : Nat) :
    ∀ c : List (List Nat), (∀ row ∈ c, row.length = m) →
      ((List.range m).map (fun col =>
        (c.filter (fun row => decide (row.getD col 0 ≠ 0))).length)).sum =
        countLit c := by
  intro c
  induction c with
  | nil =>
    intro _
    simp [countLit]
  | cons r c ih =>
    intro h
    have hr : r.length = m := h r (List.mem_cons_self r c)
    have hc : ∀ row ∈ c, row.length = m := fun row hrow => h row
      (List.mem_cons_of_mem r hrow)
    have hsplit : ∀ col : Nat,
        ((r :: c).filter (fun row => decide (row.getD col 0 ≠ 0))).length =
          (if r.getD col 0 ≠ 0 then 1 else 0) +
            (c.filter (fun row => decide (row.getD col 0 ≠ 0))).length := by
      intro col
      rw [List.filter_cons]
      by_cases hcell : r.getD col 0 ≠ 0
      · rw [if_pos (by simpa using hcell), if_pos hcell, List.length_cons]
        omega
      · rw [if_neg (by simpa using hcell), if_neg hcell]
        omega
    calc ((List.range m).map (fun col =>
            ((r :: c).filter (fun row => decide (row.getD col 0 ≠ 0))).length)).sum
        = ((List.range m).map (fun col =>
            (if r.getD col 0 ≠ 0 then 1 else 0) +
              (c.filter (fun row => decide (row.getD col 0 ≠ 0))).length)).sum := by
          congr 1
          exact List.map_congr_left (fun col _ => hsplit col)
      _ = ((List.range m).map (fun col =>
            if r.getD col 0 ≠ 0 then 1 else 0)).sum +
          ((List.range m).map (fun col =>
            (c.filter (fun row => decide (row.getD col 0 ≠ 0))).length)).sum :=
          List.sum_map_add
      _ = (r.filter (fun v => decide (v ≠ 0))).length + countLit c := by
          rw [ih hc, ← hr, ← length_filter_eq_sum_indicator]
      _ = countLit (r :: c) := by
          simp [countLit]

/-- For a 7 x 52 canvas, the planner emits exactly one offset per lit cell. -/
theorem planOffsets_length (c : List (List Nat)) (h7 : c.length = 7)
    (hrow : ∀ row ∈ c, row.length = 52) :
    (planOffsets c).length = countLit c := by
  unfold planOffsets
  rw [List.length_flatten, List.map_map]
  have hcol : ∀ col : Nat,
      ((List.range 7).filterMap (fun row =>
        if cell c row col ≠ 0 then some (7 * col + row) else none)).length =
        (c.filter (fun row => decide (row.getD col 0 ≠ 0))).length := by
    intro col
    rw [filterMap_ite_eq_map_filter (fun row => cell c row col ≠ 0)
      (fun row => 7 * col + row), List.length_map]
    have h := length_filter_range_getD ([] : List Nat)
      (fun row => decide (row.getD col 0 ≠ 0)) c
    rw [h7] at h
    exact h
  calc ((List.range 52).map (List.length ∘ fun col =>
          (List.range 7).filterMap (fun row =>
            if cell c row col ≠ 0 then some (7 * col + row) else none))).sum
      = ((List.range 52).map (fun col =>
          (c.filter (fun row => decide (row.getD col 0 ≠ 0))).length)).sum := by
        congr 1
        exact List.map_congr_left (fun col _ => hcol col)
    _ = countLit c := sum_col_counts_eq_countLit 52 c hrow

/-- C2: for every 7 x 52 canvas and every value of today, the planner emits its
dates in non-decreasing chronological order, and it emits exactly as many
dates as the canvas has lit cells. -/
theorem plan_dates_sorted_and_counts (canvas : List (List Nat)) (today : Int)
    (h7 : canvas.length = 7) (hrow : ∀ row ∈ canvas, row.length = 52) :
    (plan_dates canvas today).Pairwise (· ≤ ·) ∧
    (plan_dates canvas today).length = countLit canvas := by
  constructor
  · rw [plan_dates_eq_offsets]
    exact List.Pairwise.map _ (fun a b h => by omega)
      (planOffsets_pairwise canvas)
  · rw [plan_dates_eq_offsets, List.length_map]
    exact planOffsets_length canvas h7 hrow

/-- Witness for C2 on the composed canvas for "I" and the Saturday with
ordinal 738002. -/
theorem plan_dates_sorted_and_counts_witness :
    (plan_dates (compose_word ['I'] 52 1) 738002).Pairwise (· ≤ ·) ∧
    (plan_dates (compose_word ['I'] 52 1) 738002).length =
      countLit (compose_word ['I'] 52 1) :=
  plan_dates_sorted_and_counts (compose_word ['I'] 52 1) 738002
    (by decide) (by decide)

/-- Shape invariant of a canvas: 7 rows, each of length cols, every entry 0
or 1. -/
def wellShaped (canvas : List (List Nat)) (cols : Nat) : Prop :=
  canvas.length = 7 ∧
  ∀ row ∈ canvas, row.length = cols ∧ ∀ v ∈ row, v = 0 ∨ v = 1

/-- Writing a 1 into a cell preserves the shape invariant. -/
theorem wellShaped_setCell {canvas : List (List Nat)} {cols r c : Nat}
    (h : wellShaped canvas cols) : wellShaped (setCell canvas r c 1) cols := by
  obtain ⟨hlen, hrow⟩ := h
  by_cases hr : r < canvas.length
  · refine ⟨by rw [setCell, List.length_set, hlen], ?_⟩
    intro row hmem
    rcases List.mem_or_eq_of_mem_set hmem with h1 | h1
    · exact hrow row h1
    · subst h1
      have hget : canvas.getD r [] = canvas[r] := List.getD_eq_getElem _ _ hr
      have hmemr : canvas[r] ∈ canvas := List.getElem_mem hr
      obtain ⟨hlenr, hvalr⟩ := hrow _ hmemr
      refine ⟨by rw [hget, List.length_set, hlenr], ?_⟩
      intro v hv
      rw [hget] at hv
      rcases List.mem_or_eq_of_mem_set hv with h2 | h2
      · exact hvalr v h2
      · right
        exact h2
  · rw [setCell, List.set_eq_of_length_le (by omega)]
    exact ⟨hlen, hrow⟩

/-- Stamping one glyph preserves the shape invariant. -/
theorem wellShaped_stampGlyph {cols : Nat} (glyph : List String) (c : Int)
    {canvas : List (List Nat)} (h : wellShaped canvas cols) :
    wellShaped (stampGlyph canvas glyph c cols) cols := by
  unfold stampGlyph
  refine foldl_preserves (fun cv => wellShaped cv cols) _ ?_ _ canvas h
  intro cv r hcv
  refine foldl_preserves (fun cv2 => wellShaped cv2 cols) _ ?_ _ cv hcv
  intro cv2 x hcv2
  dsimp only
  split
  · exact wellShaped_setCell hcv2
  · exact hcv2

/-- Folding the stamping step over any letter list preserves the shape
invariant of the canvas component of the state. -/
theorem wellShaped_foldl_stamp (cols : Nat) (spacing : Int)
    (letters : List (List String)) (st : List (List Nat) × Int)
    (h : wellShaped st.1 cols) :
    wellShaped ((letters.foldl
      (fun st glyph => (stampGlyph st.1 glyph st.2 cols, st.2 + 5 + spacing))
      st).1) cols := by
  refine foldl_preserves (fun st : List (List Nat) × Int => wellShaped st.1 cols)
    _ ?_ letters st h
  intro b a hb
  exact wellShaped_stampGlyph a b.2 hb

/-- C9: for every word, every column count and every spacing, the composed
canvas has exactly 7 rows, each row has exactly total_columns entries, and
every entry is 0 or 1; clipped writes never change the grid's dimensions. -/
theorem compose_word_shape (word : List Char) (total_columns : Nat)
    (spacing : Int) :
    (compose_word word total_columns spacing).length = 7 ∧
    ∀ row ∈ compose_word word total_columns spacing,
      row.length = total_columns ∧ ∀ v ∈ row, v = 0 ∨ v = 1 := by
  have hinit : wellShaped
      (List.replicate 7 (List.replicate total_columns 0)) total_columns := by
    refine ⟨List.length_replicate 7 _, ?_⟩
    intro row hrow
    have := List.eq_of_mem_replicate hrow
    subst this
    refine ⟨List.length_replicate _ _, ?_⟩
    intro v hv
    left
    exact List.eq_of_mem_replicate hv
  exact wellShaped_foldl_stamp total_columns spacing _ _ hinit

/-- Expected canvas, stated from the spec's words for comparison: the letter's
canonical 5x7 glyph bitmap placed with its left edge at column `start` of a
7 x 52 canvas, all other cells unlit. -/
def specGlyphAt (glyph : List String) (start : Nat) : List (List Nat) :=
  (List.range 7).map (fun r => (List.range 52).map (fun c =>
    if start ≤ c ∧ c < start + 5 ∧
        (glyph.getD r "").toList.getD (c - start) '0' = '1'
    then 1 else 0))

/-- C4: for every single-letter word over the supported set, in either case,
composing on 52 columns with spacing 1 reproduces the letter's canonical glyph
bitmap at the centred start column max(0, (52 - 5) / 2) = 23, with all other
cells unlit. -/
theorem compose_single_letter (ch : Char)
    (h : ch ∈ ['N', 'E', 'R', 'D', 'L', 'I', 'n', 'e', 'r', 'd', 'l', 'i']) :
    compose_word [ch] 52 1 = specGlyphAt ((FONT_5x7 ch.toUpper).getD []) 23 ∧
    (23 : Int) = max 0 ((52 - 5) / 2) := by
  fin_cases h <;> exact ⟨by decide, by decide⟩

/-- Witness for C4 at the letter N. -/
theorem compose_single_letter_witness :
    compose_word ['N'] 52 1 = specGlyphAt ((FONT_5x7 'N'.toUpper).getD []) 23 ∧
    (23 : Int) = max 0 ((52 - 5) / 2) :=
  compose_single_letter 'N' (by decide)

/-- C6: composing a word none of whose characters is a font key after
uppercasing (in particular the empty word) yields the all-zero 7 x 52 canvas,
which has zero lit cells. -/
theorem compose_unsupported_all_empty (word : List Char)
    (h : ∀ ch ∈ word, FONT_5x7 ch.toUpper = none) :
    compose_word word 52 1 = List.replicate 7 (List.replicate 52 0) ∧
    countLit (compose_word word 52 1) = 0 := by
  have hletters : (word.map Char.toUpper).filterMap FONT_5x7 = [] := by
    rw [List.filterMap_eq_nil_iff]
    intro a ha
    obtain ⟨ch, hch, rfl⟩ := List.mem_map.mp ha
    exact h ch hch
  have h1 : compose_word word 52 1 = List.replicate 7 (List.replicate 52 0) := by
    unfold compose_word
    rw [hletters]
    rfl
  refine ⟨h1, ?_⟩
  rw [h1]
  decide

/-- Witness for C6 on the word "x6", neither character a font key. -/
theorem compose_unsupported_all_empty_witness :
    compose_word ['x', '6'] 52 1 = List.replicate 7 (List.replicate 52 0) ∧
    countLit (compose_word ['x', '6'] 52 1) = 0 :=
  compose_unsupported_all_empty ['x', '6'] (by decide)

/-- Counterexample to C5 as stated: in the composed canvas for "I", the
glyph's third textual row (row index 2) is not fully lit over the centred
columns 23..27; it only carries the single-column stem at column 25. -/
theorem compose_I_third_row_not_fully_lit :
    ¬ (∀ c ∈ [23, 24, 25, 26, 27], cell (compose_word ['I'] 52 1) 2 c = 1) := by
  decide

/-- C5 amended: for the word "I" on a 52-column canvas with today a Saturday,
the canvas is exactly the "I" glyph placed at the centred column 23 (its first
and last textual rows, 0 and 4, fully lit and a single-column stem at column
25 in rows 1..3), and the emitted dates are anchor + 23 weeks + 0 days through
anchor + 27 weeks + 4 days restricted to the lit pattern. -/
theorem compose_I_pattern_and_dates (today : Int)
    (_hsat : py_weekday today = 5) :
    compose_word ['I'] 52 1 = specGlyphAt ((FONT_5x7 'I').getD []) 23 ∧
    plan_dates (compose_word ['I'] 52 1) today =
      [leftmost_sunday today + 7 * 23 + 0, leftmost_sunday today + 7 * 23 + 4,
       leftmost_sunday today + 7 * 24 + 0, leftmost_sunday today + 7 * 24 + 4,
       leftmost_sunday today + 7 * 25 + 0, leftmost_sunday today + 7 * 25 + 1,
       leftmost_sunday today + 7 * 25 + 2, leftmost_sunday today + 7 * 25 + 3,
       leftmost_sunday today + 7 * 25 + 4,
       leftmost_sunday today + 7 * 26 + 0, leftmost_sunday today + 7 * 26 + 4,
       leftmost_sunday today + 7 * 27 + 0,
       leftmost_sunday today + 7 * 27 + 4] := by
  refine ⟨by decide, ?_⟩
  rw [plan_dates_eq_offsets]
  have hoff : planOffsets (compose_word ['I'] 52 1) =
      [161, 165, 168, 172, 175, 176, 177, 178, 179, 182, 186, 189, 193] := by
    decide
  rw [hoff]
  norm_num [List.map_cons, List.map_nil]
  omega

/-- Witness for the amended C5 at the Saturday with ordinal 738002. -/
theorem compose_I_pattern_and_dates_witness :
    compose_word ['I'] 52 1 = specGlyphAt ((FONT_5x7 'I').getD []) 23 ∧
    plan_dates (compose_word ['I'] 52 1) 738002 =
      [leftmost_sunday 738002 + 7 * 23 + 0, leftmost_sunday 738002 + 7 * 23 + 4,
       leftmost_sunday 738002 + 7 * 24 + 0, leftmost_sunday 738002 + 7 * 24 + 4,
       leftmost_sunday 738002 + 7 * 25 + 0, leftmost_sunday 738002 + 7 * 25 + 1,
       leftmost_sunday 738002 + 7 * 25 + 2, leftmost_sunday 738002 + 7 * 25 + 3,
       leftmost_sunday 738002 + 7 * 25 + 4,
       leftmost_sunday 738002 + 7 * 26 + 0, leftmost_sunday 738002 + 7 * 26 + 4,
       leftmost_sunday 738002 + 7 * 27 + 0,
       leftmost_sunday 738002 + 7 * 27 + 4] :=
  compose_I_pattern_and_dates 738002 (by decide)

/-- C8: without `--apply` the run only reports the plan and exits 0; with
`--apply` and no author email available (argument absent or empty, environment
variable absent or empty) the run aborts via `SystemExit` before creating any
commit. -/
theorem main_email_guard (word : List Char) (intensity : Nat)
    (emailArg envEmail : Option String) (today : Int)
    (hArg : emailArg = none ∨ emailArg = some "")
    (hEnv : envEmail = none ∨ envEmail = some "") :
    mainRun word intensity false emailArg envEmail today = RunResult.report ∧
    mainRun word intensity true emailArg envEmail today =
      RunResult.abortMissingEmail := by
  constructor
  · rfl
  · rcases hArg with h | h <;> rcases hEnv with h2 | h2 <;>
      subst h <;> subst h2 <;> rfl

/-- Witness for C8 with both email sources absent. -/
theorem main_email_guard_witness :
    mainRun ['N'] 6 false none none 738002 = RunResult.report ∧
    mainRun ['N'] 6 true none none 738002 = RunResult.abortMissingEmail :=
  main_email_guard ['N'] 6 none none 738002 (Or.inl rfl) (Or.inl rfl)
